import Mathlib

/-!
Verification of the module/import resolution core of the typst evaluator
(crates/typst-eval/src/import.rs), shallowly embedded in Lean. External
collaborators (value scopes, the AST helpers, the package manifest format,
the source loader and the recursive file evaluator) are modelled from the
specification, as marked on each such definition.
-/

set_option maxHeartbeats 1000000

namespace Typst

/-- Source spans are abstract locations, modelled as natural numbers. -/
abbrev Span := Nat

/-- Three-component package version, as in the package specifier grammar. -/
structure PackageVersion where
  major : Nat
  minor : Nat
  patch : Nat
deriving DecidableEq, BEq, Repr

/-- Package specifier: namespace, name, version, parsed from
a string of the form at-sign, namespace, slash, name, colon, version. -/
structure PackageSpec where
  ns : String
  name : String
  version : PackageVersion
deriving DecidableEq, BEq, Repr

/-- File identity: an optional package specifier plus a virtual path. -/
structure FileId where
  pkg : Option PackageSpec
  path : String
deriving DecidableEq, BEq, Repr

/-- Error taxonomy of the import core (the kinds of diagnostics the code
can produce, abstracted from their message strings). -/
inductive ErrKind where
  | invalidImportSource (found : String)
  | unimportableCallable
  | dynamicImportRequiresName
  | invalidModuleName
  | unresolvedImport
  | cyclicImport
  | fileLoad
  | packageSpecInvalid
  | malformedManifest
  | manifestValidation
  | invalidIncludeSource (found : String)
deriving DecidableEq, Repr

/-- A diagnostic: an error kind attributed to a span. -/
structure Diag where
  kind : ErrKind
  span : Span
deriving DecidableEq, Repr

/-- Kinds of warnings emitted by the statement-level import evaluator. -/
inductive WarnKind where
  | redundantRename
  | noEffect
deriving DecidableEq, Repr

/-- A warning: non-fatal, attributed to a span. -/
structure Warning where
  kind : WarnKind
  span : Span
deriving DecidableEq, Repr

mutual

/-- Values of the host language, restricted to the variants the import code
distinguishes: functions (with an optional attached scope), types, modules,
strings, and representatives of the remaining variants. -/
inductive Value where
  | vnone : Value
  | str : String → Value
  | int : Int → Value
  | bool : Bool → Value
  | func : String → Option Scope → Value
  | typ : String → Scope → Value
  | module : Module → Value

/-- A module: optional display name, a scope of bindings, and its rendered
body (content), which is abstract here. -/
inductive Module where
  | mk : Option String → Scope → Nat → Module

/-- An ordered scope: a list of entries, insertion order preserved. -/
inductive Scope where
  | mk : List Entry → Scope

/-- One scope entry: a name paired with its binding. -/
inductive Entry where
  | mk : String → Binding → Entry

/-- A binding: a value together with its definition span. -/
inductive Binding where
  | mk : Value → Span → Binding

end

def Entry.name : Entry → String
  | .mk n _ => n

def Entry.binding : Entry → Binding
  | .mk _ b => b

def Binding.value : Binding → Value
  | .mk v _ => v

def Binding.span : Binding → Span
  | .mk _ s => s

def Module.name : Module → Option String
  | .mk n _ _ => n

def Module.scope : Module → Scope
  | .mk _ s _ => s

def Module.content : Module → Nat
  | .mk _ _ c => c

/-- Modelled from the spec: attaching the manifest's declared package name
to a package's resulting module is a consuming transform returning a new
module, never an in-place mutation. -/
def Module.withName (m : Module) (n : String) : Module :=
  match m with
  | .mk _ s c => .mk (some n) s c

def Scope.entries : Scope → List Entry
  | .mk es => es

def getEntries : List Entry → String → Option Binding
  | [], _ => none
  | .mk m b :: rest, n => if m = n then some b else getEntries rest n

/-- Scope lookup: first entry with the given name, read-only. -/
def Scope.get (s : Scope) (n : String) : Option Binding :=
  getEntries s.entries n

def bindEntries : List Entry → String → Binding → List Entry
  | [], n, b => [.mk n b]
  | .mk m c :: rest, n, b =>
    if m = n then .mk m b :: rest else .mk m c :: bindEntries rest n b

/-- Scope bind: insert-or-overwrite, keeping the position of an existing
entry (shadow semantics, insertion order preserved). -/
def Scope.bind (s : Scope) (n : String) (b : Binding) : Scope :=
  .mk (bindEntries s.entries n b)

/-- The type name of a value, used in diagnostics that name the found type. -/
def Value.ty : Value → String
  | .vnone => "none"
  | .str _ => "string"
  | .int _ => "integer"
  | .bool _ => "boolean"
  | .func _ _ => "function"
  | .typ _ _ => "type"
  | .module _ => "module"

/-- Modelled from the spec: the namespace-capability query. It returns the
attached scope for evaluated-module, type-descriptor and
callable-with-scope variants, and none for every other variant, including
a callable without an attached scope. -/
def Value.scope : Value → Option Scope
  | .func _ s => s
  | .typ _ s => some s
  | .module m => some m.scope
  | _ => none

/-! ### Package specifiers and manifests -/

/-- Modelled from the spec: a valid identifier is nonempty, starts with a
letter or underscore, and continues with letters, digits, hyphens or
underscores. -/
def isIdentStr (s : String) : Bool :=
  match s.data with
  | [] => false
  | c :: rest => (c.isAlpha || c = '_') && rest.all (fun d => d.isAlphanum || d = '_' || d = '-')

def splitChars (sep : Char) : List Char → List (List Char)
  | [] => [[]]
  | c :: rest =>
    let r := splitChars sep rest
    if c = sep then [] :: r
    else
      match r with
      | g :: gs => (c :: g) :: gs
      | [] => [[c]]

/-- Split a string on a separator character. -/
def splitStr (s : String) (sep : Char) : List String :=
  (splitChars sep s.data).map fun cs => ⟨cs⟩

/-- Tests whether a string starts with the package-specifier sigil. -/
def startsWithAt (s : String) : Bool :=
  match s.data with
  | c :: _ => c = '@'
  | [] => false

/-- Modelled from the spec: parse a three-component numeric version. -/
def parseVersion (s : String) : Option PackageVersion :=
  match splitStr s '.' with
  | [a, b, c] =>
    match a.toNat?, b.toNat?, c.toNat? with
    | some x, some y, some z => some ⟨x, y, z⟩
    | _, _, _ => none
  | _ => none

/-- Modelled from the spec: parse a package specifier of the form
at-sign, namespace, slash, name, colon, version; the namespace and name
must be valid identifiers and the version three numeric components. -/
def parsePackageSpec (s : String) : Option PackageSpec :=
  if startsWithAt s then
    match splitStr (s.drop 1) '/' with
    | [nsPart, rest] =>
      match splitStr rest ':' with
      | [namePart, verPart] =>
        if isIdentStr nsPart && isIdentStr namePart then
          (parseVersion verPart).map fun v => ⟨nsPart, namePart, v⟩
        else none
      | _ => none
    | _ => none
  else none

/-- Modelled from the spec: the parent directory of a virtual path, i.e.
everything up to and including the last slash. -/
def dirname (s : String) : String :=
  ⟨(s.data.reverse.dropWhile (· ≠ '/')).reverse⟩

/-- Modelled from the spec: resolve a path relative to a file's location
(used both to resolve a textual source relative to the importing file and
to resolve a package entrypoint relative to its manifest). -/
def FileId.join (id : FileId) (p : String) : FileId :=
  ⟨id.pkg, dirname id.path ++ p⟩

/-- Manifest package table: declared name, version and entrypoint. -/
structure ManifestPackage where
  name : String
  version : PackageVersion
  entrypoint : String
deriving DecidableEq, Repr

/-- A parsed package manifest. Extension fields are opaque and omitted. -/
structure PackageManifest where
  package : ManifestPackage
deriving DecidableEq, Repr

/-- Modelled from the spec: the manifest's declared package name and
version must agree with the requested specifier. -/
def PackageManifest.validate (m : PackageManifest) (spec : PackageSpec) : Bool :=
  decide (m.package.name = spec.name ∧ m.package.version = spec.version)

/-! ### The world: external collaborators of the import core -/

/-- Observable interactions with the external source loader and the
recursive file evaluator, recorded so that theorems can state that a file
was or was not requested or evaluated. -/
inductive Event where
  | loadSource (id : FileId)
  | loadFile (id : FileId)
  | evalFile (id : FileId)
deriving DecidableEq, Repr

/-- Modelled from the spec: the external collaborators. `sources` lists the
file identities whose source text the loader can provide; `files` maps a
file identity to raw manifest bytes, abstracted by their parse outcome
since the manifest parser is an external collaborator; `evalFile` is the
recursive evaluate-this-file entry point returning a module or an error
list. -/
structure World where
  sources : List FileId
  files : List (FileId × Except String PackageManifest)
  evalFile : FileId → Except (List Diag) Module

def findFile : List (FileId × Except String PackageManifest) → FileId → Option (Except String PackageManifest)
  | [], _ => none
  | (i, f) :: rest, id => if i = id then some f else findFile rest id

/-- Embeds `import_file`: load the source for the identity (failure is a
file-load error at the given span), then refuse with a cyclic-import error
when the identity is already on the route, otherwise recursively evaluate
the file via the collaborator. -/
def importFile (w : World) (route : List FileId) (id : FileId) (span : Span) :
    Except (List Diag) Module × List Event :=
  if w.sources.contains id then
    if route.contains id then
      (.error [⟨.cyclicImport, span⟩], [.loadSource id])
    else
      match w.evalFile id with
      | .ok m => (.ok m, [.loadSource id, .evalFile id])
      | .error es => (.error es, [.loadSource id, .evalFile id])
  else
    (.error [⟨.fileLoad, span⟩], [.loadSource id])

/-- Embeds `resolve_package`: load and parse the package's manifest, fail
with a malformed-manifest error on a parse failure, validate the declared
name and version against the specifier, and on success return the declared
name together with the entrypoint resolved relative to the manifest. -/
def resolvePackage (w : World) (spec : PackageSpec) (span : Span) :
    Except (List Diag) (String × FileId) × List Event :=
  let manifestId : FileId := ⟨some spec, "/typst.toml"⟩
  match findFile w.files manifestId with
  | none => (.error [⟨.fileLoad, span⟩], [.loadFile manifestId])
  | some (.error _) => (.error [⟨.malformedManifest, span⟩], [.loadFile manifestId])
  | some (.ok m) =>
    if m.validate spec then
      (.ok (m.package.name, manifestId.join m.package.entrypoint), [.loadFile manifestId])
    else
      (.error [⟨.manifestValidation, span⟩], [.loadFile manifestId])

/-- Embeds `import_package`: resolve the package, then delegate to the file
importer for the entrypoint and attach the declared name to the module. -/
def importPackage (w : World) (route : List FileId) (spec : PackageSpec) (span : Span) :
    Except (List Diag) Module × List Event :=
  match resolvePackage w spec span with
  | (.error es, evs) => (.error es, evs)
  | (.ok (name, id), evs) =>
    match importFile w route id span with
    | (.ok m, evs2) => (.ok (m.withName name), evs ++ evs2)
    | (.error es, evs2) => (.error es, evs ++ evs2)

/-- Embeds `import`: dispatch on the package-specifier sigil, otherwise
resolve the text as a file path relative to the importing file. -/
def importFrom (w : World) (route : List FileId) (current : FileId) (s : String) (span : Span) :
    Except (List Diag) Module × List Event :=
  if startsWithAt s then
    match parsePackageSpec s with
    | none => (.error [⟨.packageSpecInvalid, span⟩], [])
    | some spec => importPackage w route spec span
  else
    importFile w route (current.join s) span

/-! ### Abstract syntax of the import and include statements -/

/-- The source expression of an import or include statement, abstracted to
the three shapes the evaluator distinguishes: a bare identifier, a string
literal, or any other (dynamically computed) expression. Since the general
expression evaluator is an external collaborator, each shape carries the
value it evaluates to. -/
inductive SExpr where
  | ident (name : String) (v : Value) (span : Span)
  | strLit (s : String) (span : Span)
  | dyn (v : Value) (span : Span)

def SExpr.span : SExpr → Span
  | .ident _ _ sp => sp
  | .strLit _ sp => sp
  | .dyn _ sp => sp

/-- The value the source expression evaluates to (a string literal
evaluates to that string). -/
def SExpr.val : SExpr → Value
  | .ident _ v _ => v
  | .strLit s _ => .str s
  | .dyn v _ => v

def SExpr.isIdent : SExpr → Bool
  | .ident _ _ _ => true
  | _ => false

def SExpr.isStrLit : SExpr → Bool
  | .strLit _ _ => true
  | _ => false

def SExpr.isIdentNamed (e : SExpr) (n : String) : Bool :=
  match e with
  | .ident m _ _ => decide (m = n)
  | _ => false

/-- Why no bare name can be derived from the source expression. -/
inductive BareImportError where
  | dynamic
  | pathInvalid
  | packageInvalid
deriving DecidableEq, Repr

/-- The file stem of a path: its last component without its extension. -/
def pathStem (p : String) : String :=
  let base := ((splitStr p '/').getLast?).getD ""
  let parts := splitStr base '.'
  if parts.length ≤ 1 then base else String.intercalate "." parts.dropLast

/-- Modelled from the spec: derive a candidate binding name for a
bare import from the source expression itself — the identifier for a bare
identifier; for a string literal, the package name of a package specifier
or the file stem of a path, which must be a valid identifier; any other
expression is dynamic. -/
def bareName (e : SExpr) : Except BareImportError String :=
  match e with
  | .ident n _ _ => .ok n
  | .strLit s _ =>
    if startsWithAt s then
      match parsePackageSpec s with
      | some spec => .ok spec.name
      | none => .error .packageInvalid
    else
      let stem := pathStem s
      if isIdentStr stem then .ok stem else .error .pathInvalid
  | .dyn _ _ => .error .dynamic

/-- One item of an explicit import list: a dotted path of (name, span)
segments, optionally renamed. -/
inductive ImportItem where
  | simple (path : List (String × Span))
  | renamed (path : List (String × Span)) (newName : String) (newSpan : Span)

def ImportItem.path : ImportItem → List (String × Span)
  | .simple p => p
  | .renamed p _ _ => p

/-- The name an item is bound under: its rename when present, otherwise
the final path segment's own name. -/
def ImportItem.boundName : ImportItem → String
  | .simple p => ((p.getLast?).map Prod.fst).getD ""
  | .renamed _ nn _ => nn

/-- The shape after the colon of an import statement. -/
inductive Imports where
  | wildcard
  | items (items : List ImportItem)

/-- An import statement: source expression, optional rename, optional
item list. -/
structure ModuleImport where
  source : SExpr
  newName : Option (String × Span)
  imports : Option Imports

/-- An include statement: just a source expression. -/
structure ModuleInclude where
  source : SExpr

/-! ### The virtual machine state -/

/-- The mutable state the statement-level evaluator works on: the external
world, the active import route, the identity of the file being evaluated,
the current top scope, and the warning sink. -/
structure Vm where
  world : World
  route : List FileId
  current : FileId
  top : Scope
  sink : List Warning

def Vm.warn (vm : Vm) (w : Warning) : Vm :=
  { vm with sink := vm.sink ++ [w] }

def Vm.bindTop (vm : Vm) (n : String) (b : Binding) : Vm :=
  { vm with top := vm.top.bind n b }

/-! ### The statement-level import evaluator -/

/-- Outcome of evaluating an import statement: a value, a list of
diagnostics, or a reached panic (modelling the Rust `unwrap`,
`unreachable` and `panic` sites). -/
inductive EvalOut where
  | ok (v : Value)
  | err (es : List Diag)
  | panicked (msg : String)

def EvalOut.isPanic : EvalOut → Bool
  | .panicked _ => true
  | _ => false

/-- Classification of the evaluated source value at the top of
`ModuleImport::eval`: functions without a scope are unimportable, functions
with a scope, types and modules are accepted, strings are paths to resolve,
and everything else is an invalid import source naming the found type. -/
inductive TopCheck where
  | accept
  | isPath (p : String)
  | fail (d : Diag)
deriving Repr

def topCheck (v : Value) (sp : Span) : TopCheck :=
  match v with
  | .func _ none => .fail ⟨.unimportableCallable, sp⟩
  | .func _ (some _) => .accept
  | .typ _ _ => .accept
  | .module _ => .accept
  | .str p => .isPath p
  | v => .fail ⟨.invalidImportSource v.ty, sp⟩

/-- Classification of an intermediate path segment's value in a
nested import: descend into its scope when it has one; otherwise a function
without a scope is unimportable, a non-function non-module non-type value
is an invalid import source naming the found type, and the remaining case
is the nested-import panic. -/
inductive SegCheck where
  | descend (s : Scope)
  | fail (d : Diag)
  | panicked

def segCheck (v : Value) (sp : Span) : SegCheck :=
  match v.scope with
  | some s => .descend s
  | none =>
    match v with
    | .func _ none => .fail ⟨.unimportableCallable, sp⟩
    | .func _ (some _) | .module _ | .typ _ _ => .panicked
    | v => .fail ⟨.invalidImportSource v.ty, sp⟩

def TopCheck.failDiag : TopCheck → Option Diag
  | .fail d => some d
  | _ => none

def SegCheck.failDiag : SegCheck → Option Diag
  | .fail d => some d
  | _ => none

/-- The rename step (`as NewName`): warn when the source expression is a
bare identifier textually equal to the new name, then bind the new name to
the source value in the current scope. -/
def renameStep (imp : ModuleImport) (source : Value) (vm : Vm) : Vm :=
  match imp.newName with
  | none => vm
  | some (nn, nsp) =>
    let vm := if imp.source.isIdentNamed nn then vm.warn ⟨.redundantRename, nsp⟩ else vm
    vm.bindTop nn ⟨source, nsp⟩

/-- The bare-import step (no item list, no rename): derive a name from the
source expression; reject dynamic string sources, reject names that are
not valid identifiers, warn when the import is a no-op reimport of an
identifier, otherwise bind the derived name. -/
def bareStep (imp : ModuleImport) (source : Value) (isStr : Bool) (vm : Vm) : EvalOut × Vm :=
  let sp := imp.source.span
  match bareName imp.source with
  | .ok name =>
    if !isStr || imp.source.isStrLit then
      let vm := if imp.source.isIdent then vm.warn ⟨.noEffect, sp⟩ else vm
      (.ok .vnone, vm.bindTop name ⟨source, sp⟩)
    else
      (.err [⟨.dynamicImportRequiresName, sp⟩], vm)
  | .error .dynamic => (.err [⟨.dynamicImportRequiresName, sp⟩], vm)
  | .error .pathInvalid => (.err [⟨.invalidModuleName, sp⟩], vm)
  | .error .packageInvalid => (.panicked "bad package spec should have failed the import", vm)

/-- The wildcard step: bind every entry of the source's scope into the
current scope, in the scope's stable order. -/
def wildcardStep (scope : Scope) (vm : Vm) : Vm :=
  { vm with top := scope.entries.foldl (fun t e => t.bind e.name e.binding) vm.top }

/-- Result of walking one item's dotted path. -/
inductive WalkOut where
  | ok
  | fail (d : Diag)
  | panicked
deriving Repr

/-- Walk one explicit-import item's dotted path through nested scopes:
a missing segment is an unresolved-import error at that segment's span;
a non-final segment must be namespace-capable; at the final segment, warn
on a redundant rename and bind the item's target name to the found
binding, preserving its original definition span. -/
def walkItem (item : ImportItem) : Scope → List (String × Span) → Vm → WalkOut × Vm
  | _, [], vm => (.ok, vm)
  | scope, (n, sp) :: rest, vm =>
    match scope.get n with
    | none => (.fail ⟨.unresolvedImport, sp⟩, vm)
    | some b =>
      match rest with
      | [] =>
        let vm :=
          match item with
          | .renamed _ nn nsp => if n = nn then vm.warn ⟨.redundantRename, nsp⟩ else vm
          | .simple _ => vm
        (.ok, vm.bindTop item.boundName b)
      | _ :: _ =>
        match segCheck b.value sp with
        | .descend sub => walkItem item sub rest vm
        | .fail d => (.fail d, vm)
        | .panicked => (.panicked, vm)

/-- Result of processing an explicit item list: the accumulated errors in
item order, or a reached panic. -/
inductive ItemsOut where
  | done (errors : List Diag)
  | panicked
deriving Repr

/-- Process the items of an explicit import list in order, accumulating
errors across items instead of stopping at the first failure. -/
def itemsStep (src : Scope) : List ImportItem → Vm → ItemsOut × Vm
  | [], vm => (.done [], vm)
  | item :: rest, vm =>
    match walkItem item src item.path vm with
    | (.ok, vm) => itemsStep src rest vm
    | (.fail d, vm) =>
      match itemsStep src rest vm with
      | (.done es, vm) => (.done (d :: es), vm)
      | (.panicked, vm) => (.panicked, vm)
    | (.panicked, vm) => (.panicked, vm)

/-- The part of `ModuleImport::eval` after source classification: rename,
then extract the (guaranteed) scope, then dispatch on the statement's
shape. -/
def evalRest (imp : ModuleImport) (source : Value) (isStr : Bool) (vm : Vm) : EvalOut × Vm :=
  let vm := renameStep imp source vm
  match source.scope with
  | none => (.panicked "source without scope after classification", vm)
  | some scope =>
    match imp.imports with
    | none =>
      if imp.newName.isSome then (.ok .vnone, vm)
      else bareStep imp source isStr vm
    | some .wildcard => (.ok .vnone, wildcardStep scope vm)
    | some (.items items) =>
      match itemsStep scope items vm with
      | (.done [], vm) => (.ok .vnone, vm)
      | (.done es, vm) => (.err es, vm)
      | (.panicked, vm) => (.panicked "unexpected nested import failure", vm)

/-- Embeds `ModuleImport::eval`: evaluate and classify the source
expression, resolving a string through the file or package importer, then
run the statement-shape dispatch. -/
def ModuleImport.eval (imp : ModuleImport) (vm : Vm) : EvalOut × Vm :=
  let sourceSpan := imp.source.span
  match topCheck imp.source.val sourceSpan with
  | .fail d => (.err [d], vm)
  | .isPath p =>
    match (importFrom vm.world vm.route vm.current p sourceSpan).1 with
    | .error es => (.err es, vm)
    | .ok m => evalRest imp (.module m) true vm
  | .accept => evalRest imp imp.source.val false vm

/-- Embeds `ModuleInclude::eval`: a string source is resolved through the
same file or package importer as an import; a module source is used as-is;
every other value is rejected; the result is the module's rendered body. -/
def ModuleInclude.eval (inc : ModuleInclude) (vm : Vm) : Except (List Diag) Nat :=
  let sp := inc.source.span
  match inc.source.val with
  | .str p => ((importFrom vm.world vm.route vm.current p sp).1).map Module.content
  | .module m => .ok m.content
  | v => .error [⟨.invalidIncludeSource v.ty, sp⟩]

/-! ### Helper lemmas about scopes -/

theorem getEntries_bindEntries (es : List Entry) (n m : String) (b : Binding) :
    getEntries (bindEntries es n b) m = if m = n then some b else getEntries es m := by
  induction es with
  | nil =>
    by_cases h : m = n
    · subst h; simp [bindEntries, getEntries]
    · simp [bindEntries, getEntries, h, Ne.symm h]
  | cons e rest ih =>
    cases e with
    | mk k c =>
      by_cases hk : k = n
      · subst hk
        by_cases hm : k = m
        · subst hm; simp [bindEntries, getEntries]
        · simp [bindEntries, getEntries, hm, Ne.symm hm]
      · by_cases hm : k = m
        · subst hm
          simp [bindEntries, getEntries, hk, Ne.symm hk]
        · simp [bindEntries, getEntries, hk, hm, ih]

theorem Scope.get_bind (sc : Scope) (n m : String) (b : Binding) :
    (sc.bind n b).get m = if m = n then some b else sc.get m := by
  cases sc
  simp [Scope.bind, Scope.get, Scope.entries, getEntries_bindEntries]

/-- Modelled from the spec: the binding a wildcard import leaves for a
name — the last entry of the source scope carrying that name, later
entries overwriting earlier ones. -/
def lastBind : List Entry → String → Option Binding
  | [], _ => none
  | .mk m b :: rest, n =>
    match lastBind rest n with
    | some b2 => some b2
    | none => if m = n then some b else none

theorem get_foldl_bind (es : List Entry) (t : Scope) (n : String) :
    (es.foldl (fun t e => t.bind e.name e.binding) t).get n =
      match lastBind es n with
      | some b => some b
      | none => t.get n := by
  induction es generalizing t with
  | nil => simp [lastBind]
  | cons e rest ih =>
    cases e with
    | mk m b =>
      simp only [List.foldl]
      rw [ih]
      simp only [lastBind, Entry.name, Entry.binding]
      cases h : lastBind rest n with
      | some b2 => simp
      | none =>
        simp only [Scope.get_bind]
        by_cases hmn : n = m
        · subst hmn; simp
        · simp [hmn, Ne.symm hmn]

/-! ### Helper lemmas about item walking -/

theorem segCheck_ne_panicked (v : Value) (sp : Span) : segCheck v sp ≠ .panicked := by
  cases v with
  | func n os => cases os <;> simp [segCheck, Value.scope]
  | _ => simp [segCheck, Value.scope]

/-- Modelled from the spec: the independent per-item resolution rule — the
first failing segment of the item's dotted path determines the item's
single error, and a fully resolving path contributes none. Used to compare
the in-order, state-threading loop of the evaluator against independent
per-item processing. -/
def itemDiag (sc : Scope) : List (String × Span) → Option Diag
  | [] => none
  | (n, sp) :: rest =>
    match sc.get n with
    | none => some ⟨.unresolvedImport, sp⟩
    | some b =>
      match rest with
      | [] => none
      | _ :: _ =>
        match segCheck b.value sp with
        | .descend sub => itemDiag sub rest
        | .fail d => some d
        | .panicked => none

theorem walkItem_fst (item : ImportItem) (path : List (String × Span)) (sc : Scope) (vm : Vm) :
    (walkItem item sc path vm).1 =
      match itemDiag sc path with
      | none => .ok
      | some d => .fail d := by
  induction path generalizing sc vm with
  | nil => simp [walkItem, itemDiag]
  | cons seg rest ih =>
    obtain ⟨n, sp⟩ := seg
    cases h : sc.get n with
    | none => simp [walkItem, itemDiag, h]
    | some b =>
      cases rest with
      | nil => simp [walkItem, itemDiag, h]
      | cons seg2 rest2 =>
        cases hs : segCheck b.value sp with
        | descend sub =>
          have h2 := ih sub vm
          simp only [walkItem, itemDiag, h, hs]
          simp only [walkItem, itemDiag] at h2
          exact h2
        | fail d => simp [walkItem, itemDiag, h, hs]
        | panicked => exact absurd hs (segCheck_ne_panicked _ _)

theorem itemsStep_fst (items : List ImportItem) (src : Scope) (vm : Vm) :
    (itemsStep src items vm).1 =
      .done (items.filterMap fun it => itemDiag src it.path) := by
  induction items generalizing vm with
  | nil => simp [itemsStep]
  | cons item rest ih =>
    cases h : walkItem item src item.path vm with
    | mk w vm' =>
      have hw := walkItem_fst item item.path src vm
      rw [h] at hw
      cases hd : itemDiag src item.path with
      | none =>
        rw [hd] at hw
        simp only at hw
        subst hw
        simp [itemsStep, h, hd, ih]
      | some d =>
        rw [hd] at hw
        simp only at hw
        subst hw
        cases h2 : itemsStep src rest vm' with
        | mk io vm'' =>
          have hio := ih vm'
          rw [h2] at hio
          simp only at hio
          subst hio
          simp [itemsStep, h, h2, hd]

/-! ### Helper lemmas for panic-freedom -/

theorem itemsStep_ne_panicked (items : List ImportItem) (src : Scope) (vm : Vm) :
    (itemsStep src items vm).1 ≠ .panicked := by
  rw [itemsStep_fst]
  intro h
  exact ItemsOut.noConfusion h

theorem bareStep_no_panic (imp : ModuleImport) (source : Value) (isStr : Bool) (vm : Vm)
    (h : bareName imp.source ≠ .error .packageInvalid) :
    ((bareStep imp source isStr vm).1).isPanic = false := by
  unfold bareStep
  cases hb : bareName imp.source with
  | ok name =>
    by_cases hg : (!isStr || imp.source.isStrLit) = true <;>
      simp [hg, EvalOut.isPanic]
  | error e =>
    cases e with
    | dynamic => simp [EvalOut.isPanic]
    | pathInvalid => simp [EvalOut.isPanic]
    | packageInvalid => exact absurd hb h

theorem evalRest_no_panic (imp : ModuleImport) (source : Value) (isStr : Bool) (vm : Vm)
    (h1 : ∃ s, source.scope = some s)
    (h2 : bareName imp.source ≠ .error .packageInvalid) :
    ((evalRest imp source isStr vm).1).isPanic = false := by
  obtain ⟨s, hs⟩ := h1
  unfold evalRest
  rw [hs]
  cases imp.imports with
  | none =>
    by_cases hn : imp.newName.isSome = true
    · simp [hn, EvalOut.isPanic]
    · simp only [hn]
      simp only [Bool.not_eq_true] at hn
      simp [hn, bareStep_no_panic imp source isStr _ h2]
  | some imports =>
    cases imports with
    | wildcard => simp [EvalOut.isPanic]
    | items items =>
      cases hi : itemsStep s items (renameStep imp source vm) with
      | mk io vm' =>
        have hne := itemsStep_ne_panicked items s (renameStep imp source vm)
        rw [hi] at hne
        cases io with
        | done es =>
          cases es with
          | nil => simp [hi, EvalOut.isPanic]
          | cons d ds => simp [hi, EvalOut.isPanic]
        | panicked => exact absurd rfl hne

/-! ### Claim theorems -/

/-- C10: Import evaluation never panics on its internal unreachable
branches: after source classification the source value always has an
attached scope, the invalid-package bare-name case is unreachable because
an invalid package specifier already failed path resolution, and the
nested-import panic is unreachable because every function, module or type
value either exposes a scope or is the callable-without-scope case handled
first. -/
theorem import_eval_never_panics (imp : ModuleImport) (vm : Vm) :
    ((ModuleImport.eval imp vm).1).isPanic = false := by
  simp only [ModuleImport.eval]
  cases htc : topCheck imp.source.val imp.source.span with
  | fail d => simp [EvalOut.isPanic]
  | accept =>
    simp only
    apply evalRest_no_panic
    · cases hv : imp.source.val with
      | func n os =>
        cases os with
        | none => rw [hv] at htc; simp [topCheck] at htc
        | some sc => exact ⟨sc, by simp [Value.scope]⟩
      | typ n sc => exact ⟨sc, by simp [Value.scope]⟩
      | module m => exact ⟨m.scope, by simp [Value.scope]⟩
      | str s => rw [hv] at htc; simp [topCheck] at htc
      | vnone => rw [hv] at htc; simp [topCheck] at htc
      | int i => rw [hv] at htc; simp [topCheck] at htc
      | bool b => rw [hv] at htc; simp [topCheck] at htc
    · cases he : imp.source with
      | ident n v sp => simp [bareName]
      | dyn v sp => simp [bareName]
      | strLit s sp => rw [he] at htc; simp [SExpr.val, topCheck] at htc
  | isPath p =>
    simp only
    cases him : (importFrom vm.world vm.route vm.current p imp.source.span).1 with
    | error es => simp [EvalOut.isPanic]
    | ok m =>
      apply evalRest_no_panic
      · exact ⟨m.scope, by simp [Value.scope]⟩
      · cases he : imp.source with
        | ident n v sp => simp [bareName]
        | dyn v sp => simp [bareName]
        | strLit s sp =>
          rw [he] at htc
          simp only [SExpr.val, topCheck, TopCheck.isPath.injEq] at htc
          subst htc
          simp only [bareName]
          by_cases hat : startsWithAt s = true
          · cases hp : parsePackageSpec s with
            | some spec => simp [hat, hp]
            | none =>
              rw [he] at him
              simp [importFrom, SExpr.span, hat, hp] at him
          · simp only [Bool.not_eq_true] at hat
            by_cases hid : isIdentStr (pathStem s) = true <;> simp [hat, hid]

/-- C6: For every file import whose target identity is already present on
the current import route (the file's source being loadable, as it is for
any file under active evaluation), the file importer fails with a
cyclic-import error attributed to the span of the reimporting statement,
and the recursive evaluator is never invoked for the file. -/
theorem importFile_cyclic (w : World) (route : List FileId) (id : FileId) (sp : Span)
    (hload : w.sources.contains id = true)
    (hroute : route.contains id = true) :
    importFile w route id sp = (.error [⟨.cyclicImport, sp⟩], [.loadSource id]) := by
  simp [importFile, hload, hroute]

theorem importFile_cyclic_witness :
    ([⟨none, "/a.typ"⟩] : List FileId).contains ⟨none, "/a.typ"⟩ = true ∧
    importFile ⟨[⟨none, "/a.typ"⟩], [], fun _ => .ok (.mk none (.mk []) 0)⟩
        [⟨none, "/a.typ"⟩] ⟨none, "/a.typ"⟩ 7 =
      (.error [⟨.cyclicImport, 7⟩], [.loadSource ⟨none, "/a.typ"⟩]) :=
  ⟨by decide, importFile_cyclic _ _ _ _ (by decide) (by decide)⟩

/-- C8: For every wildcard import, evaluation succeeds with no error and
no warning, and the resulting scope binds every name of the source scope
to its last binding of that name (later entries silently overwriting
earlier ones), each copied binding kept verbatim so its original
definition span is retained, while absent names keep their previous
binding. -/
theorem wildcard_import_behavior (vm : Vm) (M : Module) (sp : Span) :
    (ModuleImport.eval ⟨.dyn (.module M) sp, none, some .wildcard⟩ vm).1 = .ok .vnone ∧
    (ModuleImport.eval ⟨.dyn (.module M) sp, none, some .wildcard⟩ vm).2.sink = vm.sink ∧
    ∀ n, (ModuleImport.eval ⟨.dyn (.module M) sp, none, some .wildcard⟩ vm).2.top.get n =
      (match lastBind M.scope.entries n with
       | some b => some b
       | none => vm.top.get n) := by
  have hev : ModuleImport.eval ⟨.dyn (.module M) sp, none, some .wildcard⟩ vm =
      (.ok .vnone, wildcardStep M.scope vm) := by
    simp [ModuleImport.eval, SExpr.val, SExpr.span, topCheck, evalRest, renameStep, Value.scope]
  refine ⟨by rw [hev], by rw [hev]; rfl, fun n => ?_⟩
  rw [hev]
  simp only [wildcardStep]
  exact get_foldl_bind M.scope.entries vm.top n

theorem topCheck_accept_scope (v : Value) (sp : Span) (h : topCheck v sp = .accept) :
    ∃ s, v.scope = some s := by
  cases v with
  | func n os =>
    cases os with
    | none => simp [topCheck] at h
    | some s => exact ⟨s, rfl⟩
  | typ n sc => exact ⟨sc, rfl⟩
  | module m => exact ⟨m.scope, rfl⟩
  | str s => simp [topCheck] at h
  | vnone => simp [topCheck] at h
  | int i => simp [topCheck] at h
  | bool b => simp [topCheck] at h

theorem bindTop_get_exists (vmx vm : Vm) (hx : vmx.top = vm.top) (nm2 : String) (bnd : Binding)
    (n : String) (b : Binding) (h : vm.top.get n = some b) :
    ∃ b2, (vmx.bindTop nm2 bnd).top.get n = some b2 := by
  by_cases he : n = nm2
  · exact ⟨bnd, by simp [Vm.bindTop, Scope.get_bind, he]⟩
  · exact ⟨b, by simp [Vm.bindTop, Scope.get_bind, he, hx]; exact h⟩

theorem walkItem_snd_top_get (item : ImportItem) (path : List (String × Span)) (sc : Scope)
    (vm : Vm) (n : String) (b : Binding) (h : vm.top.get n = some b) :
    ∃ b2, (walkItem item sc path vm).2.top.get n = some b2 := by
  induction path generalizing sc vm with
  | nil => exact ⟨b, h⟩
  | cons seg rest ih =>
    obtain ⟨nm, sp⟩ := seg
    cases hg : sc.get nm with
    | none => exact ⟨b, by simp [walkItem, hg]; exact h⟩
    | some bnd =>
      cases rest with
      | nil =>
        simp only [walkItem, hg]
        refine bindTop_get_exists _ vm ?_ _ bnd n b h
        cases item with
        | simple p => rfl
        | renamed p nn2 nsp2 => by_cases hc : nm = nn2 <;> simp [hc, Vm.warn]
      | cons seg2 rest2 =>
        cases hs : segCheck bnd.value sp with
        | descend sub => simpa [walkItem, hg, hs] using ih sub vm h
        | fail d => exact ⟨b, by simp [walkItem, hg, hs]; exact h⟩
        | panicked => exact absurd hs (segCheck_ne_panicked _ _)

theorem walkItem_snd_sink (item : ImportItem) (path : List (String × Span)) (sc : Scope)
    (vm : Vm) :
    ∃ t, (walkItem item sc path vm).2.sink = vm.sink ++ t := by
  induction path generalizing sc vm with
  | nil => exact ⟨[], by simp [walkItem]⟩
  | cons seg rest ih =>
    obtain ⟨nm, sp⟩ := seg
    cases hg : sc.get nm with
    | none => exact ⟨[], by simp [walkItem, hg]⟩
    | some bnd =>
      cases rest with
      | nil =>
        simp only [walkItem, hg]
        cases item with
        | simple p => exact ⟨[], by simp [Vm.bindTop]⟩
        | renamed p nn2 nsp2 =>
          by_cases hc : nm = nn2
          · exact ⟨[⟨.redundantRename, nsp2⟩], by simp [hc, Vm.bindTop, Vm.warn]⟩
          · exact ⟨[], by simp [hc, Vm.bindTop]⟩
      | cons seg2 rest2 =>
        cases hs : segCheck bnd.value sp with
        | descend sub => simpa [walkItem, hg, hs] using ih sub vm
        | fail d => exact ⟨[], by simp [walkItem, hg, hs]⟩
        | panicked => exact absurd hs (segCheck_ne_panicked _ _)

theorem itemsStep_snd_top_get (items : List ImportItem) (sc : Scope) (vm : Vm) (n : String)
    (b : Binding) (h : vm.top.get n = some b) :
    ∃ b2, (itemsStep sc items vm).2.top.get n = some b2 := by
  induction items generalizing vm b with
  | nil => exact ⟨b, h⟩
  | cons item rest ih =>
    cases hw : walkItem item sc item.path vm with
    | mk w vm' =>
      obtain ⟨b1, hb1⟩ := walkItem_snd_top_get item item.path sc vm n b h
      rw [hw] at hb1
      cases w with
      | ok =>
        have := ih vm' b1 hb1
        simpa [itemsStep, hw] using this
      | fail d =>
        obtain ⟨b2, hb2⟩ := ih vm' b1 hb1
        cases h2 : itemsStep sc rest vm' with
        | mk io vmf =>
          rw [h2] at hb2
          cases io with
          | done es => exact ⟨b2, by simp [itemsStep, hw, h2]; exact hb2⟩
          | panicked => exact ⟨b2, by simp [itemsStep, hw, h2]; exact hb2⟩
      | panicked => exact ⟨b1, by simp [itemsStep, hw]; exact hb1⟩

theorem itemsStep_snd_sink (items : List ImportItem) (sc : Scope) (vm : Vm) :
    ∃ t, (itemsStep sc items vm).2.sink = vm.sink ++ t := by
  induction items generalizing vm with
  | nil => exact ⟨[], by simp [itemsStep]⟩
  | cons item rest ih =>
    cases hw : walkItem item sc item.path vm with
    | mk w vm' =>
      obtain ⟨t1, ht1⟩ := walkItem_snd_sink item item.path sc vm
      rw [hw] at ht1
      cases w with
      | ok =>
        obtain ⟨t2, ht2⟩ := ih vm'
        exact ⟨t1 ++ t2, by simp [itemsStep, hw]; rw [ht2, ht1, List.append_assoc]⟩
      | fail d =>
        obtain ⟨t2, ht2⟩ := ih vm'
        cases h2 : itemsStep sc rest vm' with
        | mk io vmf =>
          rw [h2] at ht2
          cases io with
          | done es =>
            exact ⟨t1 ++ t2, by simp [itemsStep, hw, h2]; rw [ht2, ht1, List.append_assoc]⟩
          | panicked =>
            exact ⟨t1 ++ t2, by simp [itemsStep, hw, h2]; rw [ht2, ht1, List.append_assoc]⟩
      | panicked => exact ⟨t1, by simp [itemsStep, hw]; exact ht1⟩

theorem renamed_vm_facts (vm : Vm) (imp : ModuleImport) (nn : String) (nsp : Span) (src : Value)
    (hn : imp.newName = some (nn, nsp)) :
    (renameStep imp src vm).top.get nn = some ⟨src, nsp⟩ ∧
    (renameStep imp src vm).sink =
      vm.sink ++ (if imp.source.isIdentNamed nn then [⟨.redundantRename, nsp⟩] else []) := by
  simp only [renameStep, hn]
  constructor
  · by_cases h : imp.source.isIdentNamed nn <;>
      simp [h, Vm.bindTop, Vm.warn, Scope.get_bind]
  · by_cases h : imp.source.isIdentNamed nn <;>
      simp [h, Vm.bindTop, Vm.warn]

/-- C9: For every import statement carrying a rename, whatever follows it
(no item list, a wildcard, or an explicit item list) and whatever the
source expression's shape, once the source is classified (accepted as-is
or resolved from text to a module) the new name is bound in the current
scope; with no item list the statement succeeds with the new name bound
exactly to the source value and the warning sink extended by exactly one
redundant-rename warning if and only if the source expression is a bare
identifier textually equal to the new name (so a string-literal source
never warns); a wildcard adds no further warning, and an item list can
only append its own item-level warnings after that same rename delta. -/
theorem rename_binding_and_warning (vm : Vm) (imp : ModuleImport) (nn : String) (nsp : Span)
    (src : Value)
    (hn : imp.newName = some (nn, nsp))
    (hclass :
      (topCheck imp.source.val imp.source.span = .accept ∧ src = imp.source.val) ∨
      (∃ p m, topCheck imp.source.val imp.source.span = .isPath p ∧
        (importFrom vm.world vm.route vm.current p imp.source.span).1 = .ok m ∧
        src = .module m)) :
    (∃ b, (ModuleImport.eval imp vm).2.top.get nn = some b) ∧
    (imp.imports = none →
      (ModuleImport.eval imp vm).1 = .ok .vnone ∧
      (ModuleImport.eval imp vm).2.top.get nn = some ⟨src, nsp⟩ ∧
      (ModuleImport.eval imp vm).2.sink =
        vm.sink ++ (if imp.source.isIdentNamed nn then [⟨.redundantRename, nsp⟩] else [])) ∧
    (imp.imports = some .wildcard →
      (ModuleImport.eval imp vm).2.sink =
        vm.sink ++ (if imp.source.isIdentNamed nn then [⟨.redundantRename, nsp⟩] else [])) ∧
    (∀ items, imp.imports = some (.items items) →
      ∃ tail, (ModuleImport.eval imp vm).2.sink =
        vm.sink ++ (if imp.source.isIdentNamed nn then [⟨.redundantRename, nsp⟩] else []) ++ tail) := by
  have hev : ∃ istr, ModuleImport.eval imp vm = evalRest imp src istr vm := by
    rcases hclass with ⟨hacc, hsrc⟩ | ⟨p, m, hip, him, hsrc⟩
    · exact ⟨false, by simp only [ModuleImport.eval, hacc, hsrc]⟩
    · exact ⟨true, by simp only [ModuleImport.eval, hip, him, hsrc]⟩
  have hsc : ∃ s, src.scope = some s := by
    rcases hclass with ⟨hacc, hsrc⟩ | ⟨p, m, hip, him, hsrc⟩
    · subst hsrc; exact topCheck_accept_scope _ _ hacc
    · subst hsrc; exact ⟨m.scope, rfl⟩
  obtain ⟨istr, hev⟩ := hev
  obtain ⟨s, hs⟩ := hsc
  obtain ⟨hget, hsink⟩ := renamed_vm_facts vm imp nn nsp src hn
  rw [hev]
  simp only [evalRest, hs]
  refine ⟨?_, ?_, ?_, ?_⟩
  · cases himp : imp.imports with
    | none => simp only [himp, hn]; exact ⟨⟨src, nsp⟩, hget⟩
    | some imports =>
      cases imports with
      | wildcard =>
        simp only [himp, wildcardStep]
        rw [get_foldl_bind]
        cases hl : lastBind s.entries nn with
        | none => exact ⟨⟨src, nsp⟩, hget⟩
        | some b2 => exact ⟨b2, rfl⟩
      | items items =>
        simp only [himp]
        obtain ⟨b2, hb2⟩ :=
          itemsStep_snd_top_get items s (renameStep imp src vm) nn ⟨src, nsp⟩ hget
        cases h2 : itemsStep s items (renameStep imp src vm) with
        | mk io vmf =>
          rw [h2] at hb2
          cases io with
          | done es => cases es <;> exact ⟨b2, hb2⟩
          | panicked => exact ⟨b2, hb2⟩
  · intro h0
    simp only [h0, hn]
    exact ⟨rfl, hget, hsink⟩
  · intro h0
    simp only [h0, wildcardStep]
    exact hsink
  · intro items h0
    simp only [h0]
    obtain ⟨tail, htail⟩ := itemsStep_snd_sink items s (renameStep imp src vm)
    cases h2 : itemsStep s items (renameStep imp src vm) with
    | mk io vmf =>
      rw [h2] at htail
      cases io with
      | done es =>
        cases es with
        | nil =>
          refine ⟨tail, ?_⟩
          show vmf.sink = _
          rw [htail, hsink]
        | cons d ds =>
          refine ⟨tail, ?_⟩
          show vmf.sink = _
          rw [htail, hsink]
      | panicked =>
        refine ⟨tail, ?_⟩
        show vmf.sink = _
        rw [htail, hsink]

/-- Module used by the rename-claim witness. -/
def renameModule : Module := .mk none (.mk []) 0

def renameVmA : Vm := ⟨⟨[], [], fun _ => .error []⟩, [], ⟨none, "/main.typ"⟩, .mk [], []⟩

/-- The statement `import a as a` with `a` a bare identifier in scope. -/
def renameStmtA : ModuleImport := ⟨.ident "a" (.module renameModule) 1, some ("a", 2), none⟩

def renameVmB : Vm :=
  ⟨⟨[⟨none, "/a.typ"⟩], [], fun _ => .ok renameModule⟩, [], ⟨none, "/main.typ"⟩, .mk [], []⟩

/-- The statement `import "a.typ" as b` with a string-literal source. -/
def renameStmtB : ModuleImport := ⟨.strLit "a.typ" 3, some ("b", 4), none⟩

theorem rename_binding_and_warning_witness :
    renameStmtA.newName = some ("a", 2) ∧
    (ModuleImport.eval renameStmtA renameVmA).2.sink = [⟨.redundantRename, 2⟩] ∧
    (ModuleImport.eval renameStmtA renameVmA).2.top.get "a" =
      some ⟨.module renameModule, 2⟩ ∧
    (ModuleImport.eval renameStmtB renameVmB).1 = .ok .vnone ∧
    (ModuleImport.eval renameStmtB renameVmB).2.sink = [] :=
  ⟨rfl,
    ((rename_binding_and_warning renameVmA renameStmtA "a" 2 (.module renameModule) rfl
      (Or.inl ⟨rfl, rfl⟩)).2.1 rfl).2.2,
    ((rename_binding_and_warning renameVmA renameStmtA "a" 2 (.module renameModule) rfl
      (Or.inl ⟨rfl, rfl⟩)).2.1 rfl).2.1,
    ((rename_binding_and_warning renameVmB renameStmtB "b" 4 (.module renameModule) rfl
      (Or.inr ⟨"a.typ", renameModule, rfl, rfl, rfl⟩)).2.1 rfl).1,
    ((rename_binding_and_warning renameVmB renameStmtB "b" 4 (.module renameModule) rfl
      (Or.inr ⟨"a.typ", renameModule, rfl, rfl, rfl⟩)).2.1 rfl).2.2⟩

/-- C3: For every explicit item list, items are processed independently
and errors are accumulated across items rather than short-circuiting: the
statement's error list equals the in-order collection of each item's
independent first-failing-segment error, and the statement fails exactly
when that full aggregated list is nonempty. -/
theorem items_error_accumulation (vm : Vm) (M : Module) (sp : Span) (items : List ImportItem) :
    (ModuleImport.eval ⟨.dyn (.module M) sp, none, some (.items items)⟩ vm).1 =
      (if (items.filterMap fun it => itemDiag M.scope it.path).isEmpty
       then .ok .vnone
       else .err (items.filterMap fun it => itemDiag M.scope it.path)) := by
  simp only [ModuleImport.eval, SExpr.val, SExpr.span, topCheck, evalRest, renameStep,
    Value.scope]
  cases hi : itemsStep M.scope items vm with
  | mk io vm' =>
    have h := itemsStep_fst items M.scope vm
    rw [hi] at h
    simp only at h
    subst h
    cases h2 : items.filterMap fun it => itemDiag M.scope it.path with
    | nil => simp [h2]
    | cons d ds => simp [h2]

/-- C4: The namespace-capability check behaves identically at the
top-level import source and at an intermediate segment of a nested item
path for every non-string value: the error produced (if any) is the same
at both sites, a callable without an attached scope fails with the
distinct unimportable-callable diagnostic at both, and any other
non-namespace-capable value fails at both with an invalid-import-source
diagnostic naming the found type, attributed to the given span. -/
theorem capability_check_agree (v : Value) (sp : Span) (h : ∀ s, v ≠ .str s) :
    (topCheck v sp).failDiag = (segCheck v sp).failDiag ∧
    ((∃ n, v = .func n none) →
      topCheck v sp = .fail ⟨.unimportableCallable, sp⟩ ∧
      segCheck v sp = .fail ⟨.unimportableCallable, sp⟩) ∧
    (v.scope = none → (∀ n os, v ≠ .func n os) →
      topCheck v sp = .fail ⟨.invalidImportSource v.ty, sp⟩ ∧
      segCheck v sp = .fail ⟨.invalidImportSource v.ty, sp⟩) := by
  cases v with
  | func n os =>
    cases os <;>
      simp [topCheck, segCheck, Value.scope, TopCheck.failDiag, SegCheck.failDiag]
  | str s => exact absurd rfl (h s)
  | typ n sc => simp [topCheck, segCheck, Value.scope, TopCheck.failDiag, SegCheck.failDiag]
  | module m => simp [topCheck, segCheck, Value.scope, TopCheck.failDiag, SegCheck.failDiag]
  | vnone => simp [topCheck, segCheck, Value.scope, Value.ty, TopCheck.failDiag, SegCheck.failDiag]
  | int i => simp [topCheck, segCheck, Value.scope, Value.ty, TopCheck.failDiag, SegCheck.failDiag]
  | bool b => simp [topCheck, segCheck, Value.scope, Value.ty, TopCheck.failDiag, SegCheck.failDiag]

theorem capability_check_agree_witness :
    (∀ s, Value.int 3 ≠ Value.str s) ∧
    ((topCheck (Value.int 3) 5).failDiag = (segCheck (Value.int 3) 5).failDiag ∧
      segCheck (Value.int 3) 5 = .fail ⟨.invalidImportSource "integer", 5⟩) :=
  ⟨fun s => by simp,
    (capability_check_agree (Value.int 3) 5 (fun s => by simp)).1,
    ((capability_check_agree (Value.int 3) 5 (fun s => by simp)).2.2 (by simp [Value.scope])
      (fun n os => by simp)).2⟩

/-- C5: For every bare import of a dynamically computed text source that
resolves to a module, evaluation without a rename fails with the
dynamic-import-requires-name error at the source's span, while the same
source with a rename succeeds and binds the new name to the resolved
module. -/
theorem dynamic_import_requires_name (vm : Vm) (s nn : String) (sp nsp : Span) (M : Module)
    (h : (importFrom vm.world vm.route vm.current s sp).1 = .ok M) :
    (ModuleImport.eval ⟨.dyn (.str s) sp, none, none⟩ vm).1 =
      .err [⟨.dynamicImportRequiresName, sp⟩] ∧
    (ModuleImport.eval ⟨.dyn (.str s) sp, some (nn, nsp), none⟩ vm).1 = .ok .vnone ∧
    (ModuleImport.eval ⟨.dyn (.str s) sp, some (nn, nsp), none⟩ vm).2.top.get nn =
      some ⟨.module M, nsp⟩ := by
  refine ⟨?_, ?_, ?_⟩ <;>
  · simp only [ModuleImport.eval, SExpr.val, SExpr.span, topCheck]
    rw [h]
    simp [evalRest, renameStep, bareStep, bareName, Value.scope, SExpr.span,
      SExpr.isIdentNamed, SExpr.isStrLit, SExpr.isIdent, Vm.bindTop, Vm.warn, Scope.get_bind]

theorem dynamic_import_requires_name_witness :
    (importFrom ⟨[⟨none, "/o.typ"⟩], [], fun _ => .ok (.mk none (.mk []) 0)⟩ []
        ⟨none, "/main.typ"⟩ "o.typ" 3).1 = .ok (.mk none (.mk []) 0) ∧
    (ModuleImport.eval ⟨.dyn (.str "o.typ") 3, none, none⟩
        ⟨⟨[⟨none, "/o.typ"⟩], [], fun _ => .ok (.mk none (.mk []) 0)⟩, [],
          ⟨none, "/main.typ"⟩, .mk [], []⟩).1 =
      .err [⟨.dynamicImportRequiresName, 3⟩] :=
  ⟨rfl,
    (dynamic_import_requires_name
      ⟨⟨[⟨none, "/o.typ"⟩], [], fun _ => .ok (.mk none (.mk []) 0)⟩, [],
        ⟨none, "/main.typ"⟩, .mk [], []⟩
      "o.typ" "m" 3 4 (.mk none (.mk []) 0) rfl).1⟩

/-- C7: For every package import whose manifest disagrees with the
requested specifier in name or version, resolution fails with the
manifest-validation error and the entrypoint is never requested from the
loader (the only recorded event is the manifest load); when the manifest
agrees, the entrypoint is resolved relative to the manifest's location and
the resulting module carries the manifest's declared package name. -/
theorem package_manifest_validation (w : World) (route : List FileId) (spec : PackageSpec)
    (sp : Span) (m : PackageManifest)
    (hm : findFile w.files ⟨some spec, "/typst.toml"⟩ = some (.ok m)) :
    ((m.package.name ≠ spec.name ∨ m.package.version ≠ spec.version) →
      importPackage w route spec sp =
        (.error [⟨.manifestValidation, sp⟩], [.loadFile ⟨some spec, "/typst.toml"⟩])) ∧
    (m.package.name = spec.name → m.package.version = spec.version →
      ∀ mod evs,
        importFile w route (FileId.join ⟨some spec, "/typst.toml"⟩ m.package.entrypoint) sp =
          (.ok mod, evs) →
        importPackage w route spec sp =
          (.ok (mod.withName m.package.name), .loadFile ⟨some spec, "/typst.toml"⟩ :: evs) ∧
        (mod.withName m.package.name).name = some m.package.name) := by
  constructor
  · intro hne
    have hv : m.validate spec = false := by
      simp only [PackageManifest.validate, decide_eq_false_iff_not]
      tauto
    simp [importPackage, resolvePackage, hm, hv]
  · intro h1 h2 mod evs hif
    have hv : m.validate spec = true := by
      simp [PackageManifest.validate, h1, h2]
    constructor
    · simp [importPackage, resolvePackage, hm, hv, hif]
    · cases mod; simp [Module.withName, Module.name]

theorem package_manifest_validation_witness :
    findFile [(⟨some ⟨"preview", "example", ⟨0, 1, 0⟩⟩, "/typst.toml"⟩,
        .ok ⟨⟨"other", ⟨0, 1, 0⟩, "main.typ"⟩⟩)] ⟨some ⟨"preview", "example", ⟨0, 1, 0⟩⟩, "/typst.toml"⟩ =
      some (.ok ⟨⟨"other", ⟨0, 1, 0⟩, "main.typ"⟩⟩) ∧
    importPackage
        ⟨[], [(⟨some ⟨"preview", "example", ⟨0, 1, 0⟩⟩, "/typst.toml"⟩,
          .ok ⟨⟨"other", ⟨0, 1, 0⟩, "main.typ"⟩⟩)], fun _ => .error []⟩
        [] ⟨"preview", "example", ⟨0, 1, 0⟩⟩ 9 =
      (.error [⟨.manifestValidation, 9⟩],
        [.loadFile ⟨some ⟨"preview", "example", ⟨0, 1, 0⟩⟩, "/typst.toml"⟩]) :=
  ⟨rfl,
    (package_manifest_validation
      ⟨[], [(⟨some ⟨"preview", "example", ⟨0, 1, 0⟩⟩, "/typst.toml"⟩,
        .ok ⟨⟨"other", ⟨0, 1, 0⟩, "main.typ"⟩⟩)], fun _ => .error []⟩
      [] ⟨"preview", "example", ⟨0, 1, 0⟩⟩ 9 ⟨⟨"other", ⟨0, 1, 0⟩, "main.typ"⟩⟩
      rfl).1 (Or.inl (by decide))⟩

/-! ### Concrete scenario for the selective-import claims -/

/-- Module loaded for the path "pkg.typ": scope has `a` bound at span 101
and `c` bound at span 102. -/
def pkgModule : Module :=
  .mk none (.mk [.mk "a" (.mk (.int 1) 101), .mk "c" (.mk (.int 2) 102)]) 0

def pkgWorld : World := ⟨[⟨none, "/pkg.typ"⟩], [], fun _ => .ok pkgModule⟩

def pkgVm : Vm := ⟨pkgWorld, [], ⟨none, "/main.typ"⟩, .mk [], []⟩

/-- The statement `import "pkg.typ": a, missing1, c, missing2` with a
span per item. -/
def pkgStmt : ModuleImport :=
  ⟨.strLit "pkg.typ" 10, none,
    some (.items [.simple [("a", 11)], .simple [("missing1", 12)],
      .simple [("c", 13)], .simple [("missing2", 14)]])⟩

/-- C1 counterexample: on `import "pkg.typ": a, missing1, c, missing2`,
the statement does fail with exactly the two unresolved-import errors, but
the bindings for the successfully resolved items `a` and `c` ARE
introduced into the current scope, contradicting the claim that a failed
statement introduces zero bindings. -/
theorem failed_import_zero_bindings_counterexample :
    (ModuleImport.eval pkgStmt pkgVm).1 =
      .err [⟨.unresolvedImport, 12⟩, ⟨.unresolvedImport, 14⟩] ∧
    (ModuleImport.eval pkgStmt pkgVm).2.top.get "a" = some ⟨.int 1, 101⟩ :=
  ⟨rfl, rfl⟩

/-- C1 amended: on `import "pkg.typ": a, missing1, c, missing2`, the
statement fails with exactly two unresolved-import errors (one per missing
item, at that item's span), but the bindings for `a` and `c` are bound
eagerly into the current scope before the failure is reported, each
retaining its original definition span, while the missing names stay
unbound. -/
theorem failed_import_eager_bindings :
    (ModuleImport.eval pkgStmt pkgVm).1 =
      .err [⟨.unresolvedImport, 12⟩, ⟨.unresolvedImport, 14⟩] ∧
    (ModuleImport.eval pkgStmt pkgVm).2.top.get "a" = some ⟨.int 1, 101⟩ ∧
    (ModuleImport.eval pkgStmt pkgVm).2.top.get "c" = some ⟨.int 2, 102⟩ ∧
    (ModuleImport.eval pkgStmt pkgVm).2.top.get "missing1" = none ∧
    (ModuleImport.eval pkgStmt pkgVm).2.top.get "missing2" = none :=
  ⟨rfl, rfl, rfl, rfl, rfl⟩

/-! ### Concrete scenario for the include claim -/

/-- A user-defined function value carrying an attached scope, so it is a
valid import source. -/
def funcWithScope : Value := .func "f" (some (.mk [.mk "x" (.mk (.int 7) 40)]))

def emptyVm : Vm := ⟨⟨[], [], fun _ => .error []⟩, [], ⟨none, "/main.typ"⟩, .mk [], []⟩

/-- C2 counterexample: a callable with an attached scope is accepted
as an import source (the import succeeds), but the include of the very same
value fails, rejected with the include-specific expected-path-or-module
diagnostic — so import and include do not share the full source
classification. -/
theorem include_accepts_import_source_counterexample :
    (ModuleImport.eval ⟨.dyn funcWithScope 7, some ("g", 8), none⟩ emptyVm).1 = .ok .vnone ∧
    ModuleInclude.eval ⟨.dyn funcWithScope 7⟩ emptyVm =
      .error [⟨.invalidIncludeSource "function", 7⟩] :=
  ⟨rfl, rfl⟩

/-- C2 amended: include classifies its source by a narrower rule
than import — only text values (resolved as file or package paths by the very
same importer function that import uses) and module values are accepted,
and include then returns the module's rendered body; a function (with or
without an attached scope) or a type, though accepted by import, is
rejected by include with the expected-path-or-module diagnostic naming the
found type, at the source expression's span. -/
theorem include_source_classification (vm : Vm) (sp : Span) :
    (∀ s : String, ModuleInclude.eval ⟨.dyn (.str s) sp⟩ vm =
      ((importFrom vm.world vm.route vm.current s sp).1).map Module.content) ∧
    (∀ M : Module, ModuleInclude.eval ⟨.dyn (.module M) sp⟩ vm = .ok M.content) ∧
    (∀ (n : String) (os : Option Scope), ModuleInclude.eval ⟨.dyn (.func n os) sp⟩ vm =
      .error [⟨.invalidIncludeSource "function", sp⟩]) ∧
    (∀ (n : String) (sc : Scope), ModuleInclude.eval ⟨.dyn (.typ n sc) sp⟩ vm =
      .error [⟨.invalidIncludeSource "type", sp⟩]) :=
  ⟨fun _ => rfl, fun _ => rfl, fun _ _ => rfl, fun _ _ => rfl⟩

end Typst
